import Mathlib

/-!
Shallow embedding of the tensor-checkpoint assembly tools
(build_tiny_vae.py, build_tiny_transcoder.py, build_auxiliary.py).

Modelling conventions:
* Python strings are embedded as `List Char` (named `PyStr`), so that all
  string operations (prefix/suffix/substring tests, slicing, splitting)
  are plain list functions with the exact Python semantics spelled out.
* Python dicts are embedded as association lists with Python's
  insertion-order semantics: assigning to an existing key replaces the
  value in place, assigning a fresh key appends it at the end
  (`dictInsert`).  `{**a, **b}` is `dictMerge`, iteration order is list
  order.
* Tensors are opaque values: either a raw payload loaded from a file
  (`Tensor.raw`, identified by an abstract id) or an injected scalar
  constant (`Tensor.scalar`), each carrying a numpy dtype tag.
  `astype` retags the dtype (payload contents are abstracted).
* File contents are byte lists; the safetensors JSON parse step is an
  explicit parameter `parse : List Nat -> Option Header` since only its
  success/failure behaviour matters to the header reader; exceptions
  raised inside the header reader's `try` block are modelled with
  `Except`.
-/
/-- Python string, embedded as its character list. -/
abbrev PyStr := List Char

/-- Shorthand turning a Lean string literal into the embedded form. -/
def lit (s : String) : PyStr := s.toList

/-- Python `s.startswith(p)`. -/
def pyStartsWith (s p : PyStr) : Bool := p.isPrefixOf s

/-- Python `s.endswith(p)`. -/
def pyEndsWith (s p : PyStr) : Bool := p.isSuffixOf s

/-- Python `sub in s` (substring containment): some tail of `s` has
`sub` as a prefix. -/
def pyContains : PyStr → PyStr → Bool
  | [], sub => sub.isPrefixOf []
  | c :: rest, sub => sub.isPrefixOf (c :: rest) || pyContains rest sub

/-- numpy dtypes appearing in the tools. -/
inductive NpDType
  | float16
  | float32
  | float64
deriving DecidableEq, Repr

/-- An opaque tensor value: a raw payload loaded from a container
(identified by an abstract id) or an injected scalar constant, each
tagged with its numpy dtype.  Payload bytes are abstracted; the dtype
tag tracks `astype` conversions. -/
inductive Tensor
  | raw (id : Nat) (dt : NpDType)
  | scalar (v : Rat) (dt : NpDType)
deriving DecidableEq, Repr

/-- numpy `tensor.astype(dtype)`: the dtype tag changes, the (abstracted)
payload is carried over. -/
def Tensor.astype : Tensor → NpDType → Tensor
  | .raw i _, dt => .raw i dt
  | .scalar v _, dt => .scalar v dt

/-- A Python dict with string keys, in insertion order. -/
abbrev Dict (α : Type) := List (PyStr × α)

/-- A parsed safetensors header; only the key list matters to the
classification and prefix-resolution code, so the header is embedded as
its ordered key list. -/
abbrev Header := List PyStr

/-- Python `d[k]` as an option (also `k in d` via `Option.isSome`). -/
def dictGet {α : Type} : Dict α → PyStr → Option α
  | [], _ => none
  | (k', v) :: rest, k => if k' = k then some v else dictGet rest k

/-- Python `k in d`. -/
def dictContains {α : Type} (d : Dict α) (k : PyStr) : Bool :=
  (dictGet d k).isSome

/-- Python `d[k] = v`: replace in place if the key exists, append
otherwise. -/
def dictInsert {α : Type} : Dict α → PyStr → α → Dict α
  | [], k, v => [(k, v)]
  | (k', v') :: rest, k, v =>
      if k' = k then (k, v) :: rest else (k', v') :: dictInsert rest k v

/-- Python `d.keys()` in insertion order. -/
def dictKeys {α : Type} (d : Dict α) : List PyStr := d.map Prod.fst

/-- Python `{**a, **b}`. -/
def dictMerge {α : Type} (a b : Dict α) : Dict α :=
  b.foldl (fun acc kv => dictInsert acc kv.1 kv.2) a

/-! ### Decimal segments and Python string splitting -/
/-- Python `s.split('.', 1)`: the part before the first dot, and the
part after it (`none` when `s` has no dot, matching a one-element
result list). -/
def splitOnceDot : PyStr → PyStr × Option PyStr
  | [] => ([], none)
  | c :: rest =>
      if c = '.' then ([], some rest)
      else
        let p := splitOnceDot rest
        (c :: p.1, p.2)

/-- Reassemble the optional remainder produced by `splitOnceDot`. -/
def sepOf : Option PyStr → PyStr
  | none => []
  | some r => '.' :: r

/-- Python `s.isdecimal()` restricted to ASCII digits (the only digits
occurring in tensor keys). -/
def isDecimal (s : PyStr) : Bool := !s.isEmpty && s.all Char.isDigit

/-- Python `int(s)` on a decimal-digit string. -/
def parseDec (s : PyStr) : Nat :=
  s.foldl (fun n c => 10 * n + (c.toNat - 48)) 0

/-- Digit-extraction loop behind `natToChars`, structured on a fuel
argument so that it reduces inside the kernel; `fuel = n` always
suffices since `n / 10 < n` for positive `n`. -/
def natToCharsAux : Nat → Nat → PyStr
  | 0, _ => []
  | fuel + 1, n =>
      if n = 0 then []
      else natToCharsAux fuel (n / 10) ++ [Nat.digitChar (n % 10)]

/-- Python `str(n)` for a non-negative integer: most-significant digit
first, no leading zeros. -/
def natToChars (n : Nat) : PyStr :=
  if n = 0 then ['0'] else natToCharsAux n n

/-- Python `str(i)` / f-string rendering of an integer. -/
def intToChars : Int → PyStr
  | Int.ofNat n => natToChars n
  | Int.negSucc m => '-' :: natToChars (m + 1)

/-! ### Embedded source functions

The two scripts build_tiny_vae.py and build_tiny_transcoder.py contain
textually identical copies of `get_safetensors_header`,
`get_tensor_prefix`, `load_tensors`, `is_taesd` and
`is_taesd_with_role`; each is embedded once.  File-system access is
embedded by passing file contents (byte lists) or pre-read containers /
headers (key-to-tensor association lists) in place of paths.  Where a
Python parameter name is a reserved word here, a shortened name is used
(`pfx` for the prefix parameters, `post` for the postfix parameter). -/
/-- Exceptions that the body of `get_safetensors_header` can raise; all
of them are listed in its `except (ValueError, json.JSONDecodeError,
IOError)` clause. -/
inductive PyExc
  | valueError
  | jsonDecodeError
  | ioError
deriving DecidableEq, Repr

/-- The little-endian unsigned integer denoted by a byte list, as read
by `struct.unpack("<Q", ...)` on the first 8 bytes. -/
def decodeLE (bytes : List Nat) : Nat :=
  bytes.foldr (fun b acc => b % 256 + 256 * acc) 0

/-- Body of `get_safetensors_header` (the code inside its `try`):
checks the file size, reads the 8-byte little-endian header length,
applies the size ceiling, and parses the header bytes.  The JSON parse
is an explicit parameter; a parse failure is the raised
`json.JSONDecodeError`. -/
def get_safetensors_header_body (parse : List Nat → Option Header)
    (file : List Nat) (size_limit : Nat) : Except PyExc Header :=
  if file.length < 8 then Except.ok []
  else
    let header_length := decodeLE (file.take 8)
    if header_length > size_limit then Except.ok []
    else
      match parse ((file.drop 8).take header_length) with
      | some header => Except.ok header
      | none => Except.error PyExc.jsonDecodeError

/-- Embeds `get_safetensors_header` (build_tiny_vae.py lines 68-92,
build_tiny_transcoder.py lines 115-139): the `try` body with every
modelled exception caught and degraded to the empty header. -/
def get_safetensors_header (parse : List Nat → Option Header)
    (file : List Nat) (size_limit : Nat) : Header :=
  match get_safetensors_header_body parse file size_limit with
  | Except.ok header => header
  | Except.error _ => []

/-- Python `key[:-n]` where `n` is a length: note that for `n = 0` this
is `key[:0] = ""`, not the whole string. -/
def pySliceDropLast (key : PyStr) (n : Nat) : PyStr :=
  if n = 0 then [] else key.take (key.length - n)

/-- Embeds `get_tensor_prefix` (build_tiny_vae.py lines 95-111,
build_tiny_transcoder.py lines 142-161): first key in stored order that
ends with `post` and does not contain the optional exclusion substring;
the returned value is `key[:-len(post)]`, or the empty string when no
key matches. -/
def get_tensor_prefix (state_dict : Header) (post : PyStr)
    (notc : Option PyStr) : PyStr :=
  match state_dict with
  | [] => []
  | key :: rest =>
      if pyEndsWith key post then
        match notc with
        | some sub =>
            if pyContains key sub then get_tensor_prefix rest post notc
            else pySliceDropLast key post.length
        | none => pySliceDropLast key post.length
      else get_tensor_prefix rest post notc

/-- Prefix normalisation prelude shared by `load_tensors` and
`load_encoder_decoder`: `if p and not p.endswith('.'): p += '.'`. -/
def normDot (p : PyStr) : PyStr :=
  if p ≠ [] ∧ pyEndsWith p (lit ".") = false then p ++ ['.'] else p

/-- Embeds `load_tensors` (build_tiny_vae.py lines 114-144,
build_tiny_transcoder.py lines 164-194, build_auxiliary.py lines
99-130): select the keys starting with the normalised source prefix,
replace that prefix by the normalised target prefix, and collect the
tensors in iteration order. -/
def load_tensors (container : Dict Tensor) (pfx target_pfx : PyStr) :
    Dict Tensor :=
  let p := normDot pfx
  let t := normDot target_pfx
  container.foldl
    (fun tensors kv =>
      if pyStartsWith kv.1 p then
        dictInsert tensors (t ++ kv.1.drop p.length) kv.2
      else tensors) []

/-- The per-key renaming performed by the loop body of `shift_layers`:
keys that do not start with the layer prefix, or whose first segment
after it is not decimal, are kept; otherwise the parsed index is shifted
by the offset and the key re-emitted. -/
def transKey (layer_pfx : PyStr) (layer_offset : Int) (key : PyStr) :
    PyStr :=
  if pyStartsWith key layer_pfx then
    let parts := splitOnceDot (key.drop layer_pfx.length)
    if isDecimal parts.1 then
      layer_pfx ++ intToChars ((parseDec parts.1 : Int) + layer_offset)
        ++ sepOf parts.2
    else key
  else key

/-- Embeds `shift_layers` (build_tiny_transcoder.py lines 197-228): rebuild
the dict with each key renamed by `transKey`. -/
def shift_layers (tensors : Dict Tensor) (layer_pfx : PyStr)
    (layer_offset : Int) : Dict Tensor :=
  tensors.foldl
    (fun fixed kv =>
      dictInsert fixed (transKey layer_pfx layer_offset kv.1) kv.2) []

/-- Python `key in state_dict` on a header. -/
def headerContains (state_dict : Header) (k : PyStr) : Bool :=
  state_dict.any (fun key => key = k)

/-- Embeds `is_taesd` (build_tiny_vae.py lines 185-218,
build_tiny_transcoder.py lines 233-266): the four early-return checks
as a disjunction, in order. -/
def is_taesd (state_dict : Header) : Bool :=
  (headerContains state_dict (lit "3.conv.4.bias")
      && headerContains state_dict (lit "8.conv.0.weight"))
  || (headerContains state_dict (lit "decoder.layers.3.conv.4.bias")
      && headerContains state_dict (lit "decoder.layers.8.conv.0.weight"))
  || (headerContains state_dict (lit "encoder.layers.4.conv.4.bias")
      && headerContains state_dict (lit "encoder.layers.8.conv.0.weight"))
  || state_dict.any (fun key =>
      pyStartsWith key (lit "taesd") || pyStartsWith key (lit "taesdxl")
      || pyStartsWith key (lit "taesd3") || pyStartsWith key (lit "taef1"))

/-- Python `os.path.basename` on a posix path. -/
def pyBasename (path : PyStr) : PyStr :=
  (path.reverse.takeWhile (fun c => ¬ c = '/')).reverse

/-- The root part of Python `os.path.splitext`: split at the last dot,
except that a dot preceded only by dots starts no extension. -/
def pySplitextRoot (s : PyStr) : PyStr :=
  match splitOnceDot s.reverse with
  | (_, some revRoot) =>
      if (revRoot.reverse).any (fun c => ¬ c = '.') then revRoot.reverse
      else s
  | (_, none) => s

/-- Python `s.lower()`. -/
def pyLower (s : PyStr) : PyStr := s.map Char.toLower

/-- Embeds `is_taesd_with_role` (build_tiny_vae.py lines 221-247,
build_tiny_transcoder.py lines 269-295).  `ENCODER_TENSOR_SUBNAMES`
maps each valid role to the one-element tuple containing the role name
itself, so the key scan is a substring test against `role`; the final
fallback tests whether the role name occurs in the lower-cased file
base name without its extension. -/
def is_taesd_with_role (file_path : PyStr) (state_dict : Header)
    (role : PyStr) : Bool :=
  if state_dict = [] ∨ is_taesd state_dict = false then false
  else if state_dict.any (fun key => pyContains key role) then true
  else pyContains (pyLower (pySplitextRoot (pyBasename file_path))) role

/-- The opposite role computed by both `find_taesd_with_role`
variants. -/
def oppositeRole (role : PyStr) : PyStr :=
  if role = lit "encoder" then lit "decoder" else lit "encoder"

/-- Embeds `find_taesd_with_role` (build_tiny_transcoder.py lines 298-317):
first input file classified as a TAESD model with the given role,
together with its resolved tensor prefix; `none` when no file matches.
Input files are (path, parsed header) pairs. -/
def find_taesd_with_role (input_files : List (PyStr × Header))
    (role : PyStr) : Option (PyStr × PyStr) :=
  match input_files with
  | [] => none
  | f :: rest =>
      if is_taesd_with_role f.1 f.2 role then
        some (f.1, get_tensor_prefix f.2 (lit ".3.conv.4.bias")
          (some (oppositeRole role)))
      else find_taesd_with_role rest role

/-- Embeds `find_taesd_with_role` (build_tiny_vae.py lines 250-272): same
scan, but a miss yields the pair of empty strings instead of `None`. -/
def find_taesd_with_role_vae (input_files : List (PyStr × Header))
    (role : PyStr) : PyStr × PyStr :=
  match input_files with
  | [] => ([], [])
  | f :: rest =>
      if is_taesd_with_role f.1 f.2 role then
        (f.1, get_tensor_prefix f.2 (lit ".3.conv.4.bias")
          (some (oppositeRole role)))
      else find_taesd_with_role_vae rest role

/-- Target prefix constant `ENCODER_PREFIX` of build_tiny_transcoder.py. -/
def ENCODER_PFX : PyStr := lit "encoder."

/-- Target prefix constant `DECODER_PREFIX` of build_tiny_transcoder.py. -/
def DECODER_PFX : PyStr := lit "decoder."

/-- Embeds `SCALE_SHIFT_BY_LATENT_FORMAT` (build_tiny_transcoder.py lines
29-34); note the negative shifts for sd3 and f1. -/
def SCALE_SHIFT_BY_LATENT_FORMAT (fmt : PyStr) : Option (Rat × Rat) :=
  if fmt = lit "sd" then some (18215 / 100000, 0)
  else if fmt = lit "sdxl" then some (13025 / 100000, 0)
  else if fmt = lit "sd3" then some (15305 / 10000, -(609 / 10000))
  else if fmt = lit "f1" then some (3611 / 10000, -(1159 / 10000))
  else none

/-- Python `SCALE_SHIFT_BY_LATENT_FORMAT.get(fmt, (1., 0.))`. -/
def scaleShiftGet (fmt : PyStr) : Rat × Rat :=
  (SCALE_SHIFT_BY_LATENT_FORMAT fmt).getD (1, 0)

/-- Embeds `build_tiny_transcoder` (build_tiny_transcoder.py lines 325-380).
The encoder/decoder sources are passed as container contents plus
source prefix (standing for the `(path, prefix)` tuples).  All tensors
in the model are numpy arrays, so the `isinstance` guard of the dtype
loop always holds. -/
def build_tiny_transcoder (enc_container : Dict Tensor) (enc_pfx : PyStr)
    (dec_container : Dict Tensor) (dec_pfx : PyStr)
    (use_unnormalized_adapter : Bool)
    (input_latent_format output_latent_format : PyStr)
    (dtype : Option NpDType) : Dict Tensor :=
  let encoder_tensors := load_tensors enc_container enc_pfx ENCODER_PFX
  let decoder_tensors := load_tensors dec_container dec_pfx DECODER_PFX
  let merged := dictMerge encoder_tensors decoder_tensors
  let shifted :=
    if dictContains merged (DECODER_PFX ++ lit "0.weight") then
      shift_layers merged DECODER_PFX 1
    else merged
  let blurred :=
    if input_latent_format = lit "sdxl" ∧ output_latent_format = lit "sd"
    then
      dictInsert shifted (lit "gaussian_blur_sigma")
        (Tensor.scalar (1 / 2) NpDType.float32)
    else shifted
  let adapted :=
    if use_unnormalized_adapter then
      let ssIn := scaleShiftGet input_latent_format
      let ssOut := scaleShiftGet output_latent_format
      dictInsert (dictInsert (dictInsert (dictInsert blurred
        (lit "unnormalized_adapter_in.scale_factor")
          (Tensor.scalar ssIn.1 NpDType.float32))
        (lit "unnormalized_adapter_in.shift_factor")
          (Tensor.scalar ssIn.2 NpDType.float32))
        (lit "unnormalized_adapter_out.scale_factor")
          (Tensor.scalar ssOut.1 NpDType.float32))
        (lit "unnormalized_adapter_out.shift_factor")
          (Tensor.scalar ssOut.2 NpDType.float32)
    else blurred
  match dtype with
  | some dt =>
      adapted.foldl
        (fun conv kv => dictInsert conv kv.1 (kv.2.astype dt)) []
  | none => adapted

/-- Embeds `build_tiny_vae` (build_tiny_vae.py lines 277-332).  The dtype pass
mutates the dict in place key by key, i.e. maps the values; all values
are numpy arrays, so the `isinstance` guard always holds. -/
def build_tiny_vae (enc_container : Dict Tensor) (enc_pfx : PyStr)
    (dec_container : Dict Tensor) (dec_pfx : PyStr)
    (model_class : PyStr) (dtype : Option NpDType) : Dict Tensor :=
  let encoder_tensors := load_tensors enc_container enc_pfx
    (lit "taesd_encoder")
  let decoder_tensors := load_tensors dec_container dec_pfx
    (lit "taesd_decoder")
  let merged := dictMerge encoder_tensors decoder_tensors
  let params :=
    if dictContains merged (lit "vae_scale") = false
        ∧ dictContains merged (lit "vae_shift") = false then
      if model_class = lit "sd" then
        dictInsert (dictInsert merged
          (lit "vae_scale") (Tensor.scalar (18215 / 100000) NpDType.float64))
          (lit "vae_shift") (Tensor.scalar 0 NpDType.float64)
      else if model_class = lit "sdxl" then
        dictInsert (dictInsert merged
          (lit "vae_scale") (Tensor.scalar (13025 / 100000) NpDType.float64))
          (lit "vae_shift") (Tensor.scalar 0 NpDType.float64)
      else if model_class = lit "sd3" then
        dictInsert (dictInsert merged
          (lit "vae_scale") (Tensor.scalar (15305 / 10000) NpDType.float64))
          (lit "vae_shift") (Tensor.scalar (609 / 10000) NpDType.float64)
      else if model_class = lit "f1" then
        dictInsert (dictInsert merged
          (lit "vae_scale") (Tensor.scalar (3611 / 10000) NpDType.float64))
          (lit "vae_shift") (Tensor.scalar (1159 / 10000) NpDType.float64)
      else merged
    else merged
  match dtype with
  | some dt => params.map (fun kv => (kv.1, kv.2.astype dt))
  | none => params

/-- Python `s.replace(old, new, 1)`: replace the first occurrence of
`old` (the empty pattern matches at the start). -/
def pyReplaceFirst (old new : PyStr) : PyStr → PyStr
  | [] => if List.isPrefixOf old [] then new else []
  | c :: rest =>
      if List.isPrefixOf old (c :: rest) then
        new ++ (c :: rest).drop old.length
      else c :: pyReplaceFirst old new rest

/-- Embeds `load_encoder_decoder` (build_auxiliary.py lines 132-175):
re-namespace `taesd_encoder.` / `taesd_decoder.` keys under the target
encoder/decoder prefixes, duplicate top-level `vae_scale` / `vae_shift`
into both, and drop everything else. -/
def load_encoder_decoder (container : Dict Tensor) (pfx target_pfx : PyStr) :
    Dict Tensor :=
  let p := normDot pfx
  let t := normDot target_pfx
  let encoder_pfx := t ++ lit "encoder."
  let decoder_pfx := t ++ lit "decoder."
  let state_dict := load_tensors container p []
  state_dict.foldl
    (fun out kv =>
      if pyStartsWith kv.1 (lit "taesd_encoder.") then
        dictInsert out (pyReplaceFirst (lit "taesd_encoder.") encoder_pfx kv.1)
          kv.2
      else if pyStartsWith kv.1 (lit "taesd_decoder.") then
        dictInsert out (pyReplaceFirst (lit "taesd_decoder.") decoder_pfx kv.1)
          kv.2
      else if kv.1 = lit "vae_scale" then
        dictInsert (dictInsert out (encoder_pfx ++ lit "vae_scale") kv.2)
          (decoder_pfx ++ lit "vae_scale") kv.2
      else if kv.1 = lit "vae_shift" then
        dictInsert (dictInsert out (encoder_pfx ++ lit "vae_shift") kv.2)
          (decoder_pfx ++ lit "vae_shift") kv.2
      else out) []

/-- Embeds `build_auxiliary` (build_auxiliary.py lines 180-211): re-namespace
the two VAE checkpoints and the transcoder checkpoint, merge, and cast
(`dtype = none` models a falsy dtype argument). -/
def build_auxiliary (tiny_vae_sd tiny_vae_sdxl tiny_transcoder : Dict Tensor)
    (dtype : Option NpDType) : Dict Tensor :=
  let sd_tensors := load_encoder_decoder tiny_vae_sd []
    (lit "first_stage_model.sd")
  let xl_tensors := load_encoder_decoder tiny_vae_sdxl []
    (lit "first_stage_model.xl")
  let tc_tensors := load_tensors tiny_transcoder [] (lit "transcoder")
  let state_dict := dictMerge (dictMerge sd_tensors xl_tensors) tc_tensors
  match dtype with
  | some dt =>
      state_dict.foldl
        (fun conv kv => dictInsert conv kv.1 (kv.2.astype dt)) []
  | none => state_dict

/-- The encoder/decoder source selection step of `main` in
build_tiny_vae.py (lines 381-386): both roles are looked up in the
input file list, then a missing (empty) *path* is fatal.  The returned
value is the pair of `(path, source_prefix)` pairs that `main` passes
on to `build_tiny_vae`; `Except.error` is the `fatal_error` exit. -/
def vae_main_select (input_files : List (PyStr × Header)) :
    Except Unit ((PyStr × PyStr) × (PyStr × PyStr)) :=
  let e := find_taesd_with_role_vae input_files (lit "encoder")
  let d := find_taesd_with_role_vae input_files (lit "decoder")
  if e.1 = [] then Except.error ()
  else if d.1 = [] then Except.error ()
  else Except.ok (e, d)

/-- The encoder/decoder source selection step of `main` in
build_tiny_transcoder.py (lines 462-468): the encoder is searched among
the `--to-*` file, the decoder among the `--from-*` file, and a `None`
result for either is fatal (`Except.error`). -/
def transcoder_main_select (encoder_files decoder_files :
    List (PyStr × Header)) :
    Except Unit ((PyStr × PyStr) × (PyStr × PyStr)) :=
  match find_taesd_with_role encoder_files (lit "encoder"),
      find_taesd_with_role decoder_files (lit "decoder") with
  | none, _ => Except.error ()
  | some _, none => Except.error ()
  | some e, some d => Except.ok (e, d)

/-- Canonicity of a key with respect to a layer prefix: when the key
starts with the prefix and its first segment after it is decimal, that
segment is the canonical decimal rendering of its value (no leading
zeros). -/
def canonKey (layer_pfx key : PyStr) : Bool :=
  if pyStartsWith key layer_pfx then
    let seg := (splitOnceDot (key.drop layer_pfx.length)).1
    if isDecimal seg then decide (natToChars (parseDec seg) = seg) else true
  else true

/-- The match predicate of the prefix resolver, stated independently of
the scanning recursion: the key ends with the anchor suffix and does
not contain the exclusion substring. -/
def anchorMatches (post : PyStr) (notc : Option PyStr) (key : PyStr) :
    Bool :=
  pyEndsWith key post
    && (match notc with
        | some sub => !pyContains key sub
        | none => true)

/-- The Python truthiness of the drop test in `load_encoder_decoder`:
keys kept by the categorisation loop. -/
def vaeTopLevelKept (k : PyStr) : Bool :=
  pyStartsWith k (lit "taesd_encoder.")
  || pyStartsWith k (lit "taesd_decoder.")
  || (k = lit "vae_scale") || (k = lit "vae_shift")

/-! ### Basic dictionary lemmas -/
theorem dictGet_insert_self {α : Type} (d : Dict α) (k : PyStr) (v : α) :
    dictGet (dictInsert d k v) k = some v := by
  induction d with
  | nil => simp [dictInsert, dictGet]
  | cons kv rest ih =>
      obtain ⟨k', v'⟩ := kv
      by_cases h : k' = k
      · simp [dictInsert, h, dictGet]
      · simp [dictInsert, h, dictGet, ih]

theorem dictGet_insert_ne {α : Type} (d : Dict α) (k k' : PyStr) (v : α)
    (h : k ≠ k') : dictGet (dictInsert d k v) k' = dictGet d k' := by
  induction d with
  | nil => simp [dictInsert, dictGet, h]
  | cons kv rest ih =>
      obtain ⟨k₀, v₀⟩ := kv
      by_cases h₀ : k₀ = k
      · subst h₀; simp [dictInsert, dictGet, h]
      · simp [dictInsert, h₀, dictGet, ih]

theorem dictKeys_cons {α : Type} (k₀ : PyStr) (v₀ : α) (d : Dict α) :
    dictKeys ((k₀, v₀) :: d) = k₀ :: dictKeys d := rfl

theorem dictInsert_cons_eq {α : Type} (d : Dict α) (k : PyStr) (v v₀ : α) :
    dictInsert ((k, v₀) :: d) k v = (k, v) :: d := by
  simp [dictInsert]

theorem dictInsert_cons_ne {α : Type} (d : Dict α) (k₀ k : PyStr)
    (v v₀ : α) (h : k₀ ≠ k) :
    dictInsert ((k₀, v₀) :: d) k v = (k₀, v₀) :: dictInsert d k v := by
  simp [dictInsert, h]

theorem mem_dictKeys_insert {α : Type} (d : Dict α) (k k' : PyStr) (v : α)
    (h : k' ∈ dictKeys (dictInsert d k v)) : k' = k ∨ k' ∈ dictKeys d := by
  induction d with
  | nil => simpa [dictInsert, dictKeys] using h
  | cons kv rest ih =>
      obtain ⟨k₀, v₀⟩ := kv
      by_cases h₀ : k₀ = k
      · subst h₀
        rw [dictInsert_cons_eq, dictKeys_cons, List.mem_cons] at h
        rcases h with h | h
        · exact Or.inl h
        · exact Or.inr (by rw [dictKeys_cons]; exact List.mem_cons_of_mem _ h)
      · rw [dictInsert_cons_ne rest k₀ k v v₀ h₀, dictKeys_cons,
          List.mem_cons] at h
        rcases h with h | h
        · exact Or.inr (by rw [dictKeys_cons, List.mem_cons]; exact Or.inl h)
        · rcases ih h with h' | h'
          · exact Or.inl h'
          · exact Or.inr (by rw [dictKeys_cons]; exact List.mem_cons_of_mem _ h')

theorem dictKeys_insert_nodup {α : Type} (d : Dict α) (k : PyStr) (v : α)
    (h : (dictKeys d).Nodup) : (dictKeys (dictInsert d k v)).Nodup := by
  induction d with
  | nil => simp [dictInsert, dictKeys]
  | cons kv rest ih =>
      obtain ⟨k₀, v₀⟩ := kv
      rw [dictKeys_cons, List.nodup_cons] at h
      by_cases h₀ : k₀ = k
      · subst h₀
        rw [dictInsert_cons_eq, dictKeys_cons, List.nodup_cons]
        exact h
      · rw [dictInsert_cons_ne rest k₀ k v v₀ h₀, dictKeys_cons,
          List.nodup_cons]
        refine ⟨?_, ih h.2⟩
        intro hmem
        rcases mem_dictKeys_insert rest k k₀ v hmem with h' | h'
        · exact h₀ h'
        · exact h.1 h'

theorem dictInsert_eq_append {α : Type} (d : Dict α) (k : PyStr) (v : α)
    (h : k ∉ dictKeys d) : dictInsert d k v = d ++ [(k, v)] := by
  induction d with
  | nil => simp [dictInsert]
  | cons kv rest ih =>
      obtain ⟨k₀, v₀⟩ := kv
      rw [dictKeys_cons, List.mem_cons] at h
      push_neg at h
      rw [dictInsert_cons_ne rest k₀ k v v₀ (Ne.symm h.1), List.cons_append]
      rw [ih h.2]

theorem dictGet_eq_none_of_not_mem {α : Type} (d : Dict α) (k : PyStr)
    (h : k ∉ dictKeys d) : dictGet d k = none := by
  induction d with
  | nil => simp [dictGet]
  | cons kv rest ih =>
      obtain ⟨k₀, v₀⟩ := kv
      rw [dictKeys_cons, List.mem_cons] at h
      push_neg at h
      rw [show dictGet ((k₀, v₀) :: rest) k
            = if k₀ = k then some v₀ else dictGet rest k from rfl,
        if_neg (Ne.symm h.1)]
      exact ih h.2

theorem dictGet_map_value {α β : Type} (d : Dict α) (g : α → β) (k : PyStr) :
    dictGet (d.map (fun kv => (kv.1, g kv.2))) k = (dictGet d k).map g := by
  induction d with
  | nil => simp [dictGet]
  | cons kv rest ih =>
      obtain ⟨k₀, v₀⟩ := kv
      by_cases h : k₀ = k
      · simp [dictGet, h]
      · simp [dictGet, h, ih]

/-! ### Generic lemmas about dict-building loops

All the Python loops that build a fresh dict have the shape
`for k, v in src: if <cond>: out[<newkey>] = <newval>`, i.e. a left fold
of conditional `dictInsert` steps.  The following lemmas characterise
such folds: when the produced keys are duplicate-free the fold is a
`filterMap`, any key of the result comes from the accumulator or from a
produced entry, and key-nodup-ness is preserved. -/
theorem foldl_insert_eq_filterMap {α β : Type}
    (f : PyStr × α → Option (PyStr × β))
    (step : Dict β → PyStr × α → Dict β)
    (hstep : ∀ a kv, step a kv
      = match f kv with
        | some kv' => dictInsert a kv'.1 kv'.2
        | none => a) :
    ∀ (l : List (PyStr × α)) (acc : Dict β),
      ((l.filterMap f).map Prod.fst).Nodup →
      (∀ k ∈ (l.filterMap f).map Prod.fst, k ∉ dictKeys acc) →
      l.foldl step acc = acc ++ l.filterMap f := by
  intro l
  induction l with
  | nil => intro acc _ _; simp
  | cons kv rest ih =>
      intro acc hnd hdis
      rw [List.foldl_cons, hstep]
      cases hf : f kv with
      | none =>
          simp only [hf]
          have : (kv :: rest).filterMap f = rest.filterMap f := by
            simp [List.filterMap_cons, hf]
          rw [this] at hnd hdis ⊢
          exact ih acc hnd hdis
      | some kv' =>
          simp only [hf]
          have hfm : (kv :: rest).filterMap f = kv' :: rest.filterMap f := by
            simp [List.filterMap_cons, hf]
          rw [hfm] at hnd hdis ⊢
          rw [List.map_cons, List.nodup_cons] at hnd
          have hacc : kv'.1 ∉ dictKeys acc :=
            hdis kv'.1 (by rw [List.map_cons]; exact List.mem_cons_self _ _)
          rw [dictInsert_eq_append acc kv'.1 kv'.2 hacc]
          have hrec : rest.foldl step (acc ++ [(kv'.1, kv'.2)])
              = (acc ++ [(kv'.1, kv'.2)]) ++ rest.filterMap f := by
            refine ih _ hnd.2 ?_
            intro k hk
            have hne : k ≠ kv'.1 := by
              intro he; exact hnd.1 (he ▸ hk)
            intro hmem
            have hmem' : k ∈ dictKeys acc ∨ k = kv'.1 := by
              rw [dictKeys, List.map_append] at hmem
              rcases List.mem_append.1 hmem with h | h
              · exact Or.inl h
              · exact Or.inr (by simpa using h)
            rcases hmem' with h | h
            · exact hdis k
                (by rw [List.map_cons]; exact List.mem_cons_of_mem _ hk) h
            · exact hne h
          rw [hrec, List.append_assoc]
          rfl

theorem mem_keys_foldl_insert {α β : Type}
    (f : PyStr × α → Option (PyStr × β))
    (step : Dict β → PyStr × α → Dict β)
    (hstep : ∀ a kv, step a kv
      = match f kv with
        | some kv' => dictInsert a kv'.1 kv'.2
        | none => a) :
    ∀ (l : List (PyStr × α)) (acc : Dict β) (k : PyStr),
      k ∈ dictKeys (l.foldl step acc) →
      k ∈ dictKeys acc ∨ ∃ kv ∈ l, ∃ kv', f kv = some kv' ∧ kv'.1 = k := by
  intro l
  induction l with
  | nil => intro acc k h; exact Or.inl h
  | cons kv rest ih =>
      intro acc k h
      rw [List.foldl_cons, hstep] at h
      cases hf : f kv with
      | none =>
          rw [hf] at h
          rcases ih acc k h with h' | ⟨kv₀, hm, kv', hf', hk⟩
          · exact Or.inl h'
          · exact Or.inr ⟨kv₀, List.mem_cons_of_mem _ hm, kv', hf', hk⟩
      | some kv' =>
          rw [hf] at h
          rcases ih _ k h with h' | ⟨kv₀, hm, kv₀', hf', hk⟩
          · rcases mem_dictKeys_insert acc kv'.1 k kv'.2 h' with h'' | h''
            · exact Or.inr ⟨kv, List.mem_cons_self kv rest, kv', hf, h''.symm⟩
            · exact Or.inl h''
          · exact Or.inr ⟨kv₀, List.mem_cons_of_mem _ hm, kv₀', hf', hk⟩

theorem nodup_keys_foldl_insert {α β : Type}
    (f : PyStr × α → Option (PyStr × β))
    (step : Dict β → PyStr × α → Dict β)
    (hstep : ∀ a kv, step a kv
      = match f kv with
        | some kv' => dictInsert a kv'.1 kv'.2
        | none => a) :
    ∀ (l : List (PyStr × α)) (acc : Dict β),
      (dictKeys acc).Nodup → (dictKeys (l.foldl step acc)).Nodup := by
  intro l
  induction l with
  | nil => intro acc h; exact h
  | cons kv rest ih =>
      intro acc h
      rw [List.foldl_cons, hstep]
      cases hf : f kv with
      | none => exact ih acc h
      | some kv' => exact ih _ (dictKeys_insert_nodup acc kv'.1 kv'.2 h)

theorem splitOnceDot_eq (s : PyStr) :
    s = (splitOnceDot s).1 ++ sepOf (splitOnceDot s).2
      ∧ '.' ∉ (splitOnceDot s).1 := by
  induction s with
  | nil => simp [splitOnceDot, sepOf]
  | cons c rest ih =>
      by_cases hc : c = '.'
      · subst hc; simp [splitOnceDot, sepOf]
      · simp only [splitOnceDot, if_neg hc]
        refine ⟨?_, ?_⟩
        · conv_lhs => rw [ih.1]
          rw [List.cons_append]
        · simp only [List.mem_cons, not_or]
          exact ⟨fun h => hc h.symm, ih.2⟩

theorem splitOnceDot_append (a : PyStr) (r : Option PyStr)
    (h : '.' ∉ a) : splitOnceDot (a ++ sepOf r) = (a, r) := by
  induction a with
  | nil =>
      cases r with
      | none => simp [splitOnceDot, sepOf]
      | some t => simp [splitOnceDot, sepOf]
  | cons c rest ih =>
      simp only [List.mem_cons, not_or] at h
      have hc : ¬ c = '.' := fun hcc => h.1 hcc.symm
      rw [List.cons_append]
      rw [show splitOnceDot (c :: (rest ++ sepOf r))
            = if c = '.' then ([], some (rest ++ sepOf r))
              else ((c :: (splitOnceDot (rest ++ sepOf r)).1),
                    (splitOnceDot (rest ++ sepOf r)).2) from rfl]
      rw [if_neg hc, ih h.2]

theorem digitChar_toNat_sub (d : Nat) (h : d < 10) :
    (Nat.digitChar d).toNat - 48 = d := by
  interval_cases d <;> decide

theorem digitChar_isDigit (d : Nat) (h : d < 10) :
    (Nat.digitChar d).isDigit = true := by
  interval_cases d <;> decide

theorem parseDec_append_digit (a : PyStr) (c : Char) :
    parseDec (a ++ [c]) = 10 * parseDec a + (c.toNat - 48) := by
  unfold parseDec
  rw [List.foldl_append]
  rfl

theorem parseDec_natToCharsAux :
    ∀ fuel n, n ≤ fuel → parseDec (natToCharsAux fuel n) = n := by
  intro fuel
  induction fuel with
  | zero =>
      intro n hn
      have : n = 0 := Nat.le_zero.1 hn
      subst this
      rfl
  | succ fuel ih =>
      intro n hn
      by_cases h : n = 0
      · subst h
        simp [natToCharsAux, parseDec]
      · rw [natToCharsAux, if_neg h, parseDec_append_digit]
        have hdiv : n / 10 ≤ fuel := by
          have hlt : n / 10 < n :=
            Nat.div_lt_self (Nat.pos_of_ne_zero h) (by norm_num)
          omega
        rw [ih (n / 10) hdiv,
          digitChar_toNat_sub (n % 10) (Nat.mod_lt n (by norm_num))]
        omega

theorem parseDec_natToChars (n : Nat) : parseDec (natToChars n) = n := by
  by_cases h : n = 0
  · subst h; decide
  · rw [natToChars, if_neg h]
    exact parseDec_natToCharsAux n n (le_refl n)

theorem natToCharsAux_all_digit :
    ∀ fuel n, ∀ c ∈ natToCharsAux fuel n, c.isDigit = true := by
  intro fuel
  induction fuel with
  | zero => intro n c hc; simp [natToCharsAux] at hc
  | succ fuel ih =>
      intro n c hc
      by_cases h : n = 0
      · subst h; simp [natToCharsAux] at hc
      · rw [natToCharsAux, if_neg h] at hc
        rcases List.mem_append.1 hc with h' | h'
        · exact ih (n / 10) c h'
        · rw [List.mem_singleton.1 h']
          exact digitChar_isDigit (n % 10) (Nat.mod_lt n (by norm_num))

theorem natToChars_all_digit (n : Nat) :
    ∀ c ∈ natToChars n, c.isDigit = true := by
  by_cases h : n = 0
  · subst h; decide
  · rw [natToChars, if_neg h]
    exact natToCharsAux_all_digit n n

theorem natToChars_ne_nil (n : Nat) : natToChars n ≠ [] := by
  by_cases h : n = 0
  · subst h; decide
  · rw [natToChars, if_neg h]
    obtain ⟨m, rfl⟩ := Nat.exists_eq_succ_of_ne_zero h
    rw [natToCharsAux, if_neg h]
    simp

theorem dot_not_mem_natToChars (n : Nat) : '.' ∉ natToChars n := by
  intro h
  have := natToChars_all_digit n '.' h
  simp [Char.isDigit] at this

theorem isDecimal_natToChars (n : Nat) : isDecimal (natToChars n) = true := by
  rw [isDecimal, Bool.and_eq_true]
  refine ⟨?_, ?_⟩
  · cases hn : natToChars n with
    | nil => exact absurd hn (natToChars_ne_nil n)
    | cons c rest => simp [List.isEmpty]
  · exact List.all_eq_true.2 (fun c hc => natToChars_all_digit n c hc)

theorem intToChars_natCast (n : Nat) : intToChars (n : Int) = natToChars n :=
  rfl

/-! ### Lemmas about prefix tests and the key transformer -/
theorem pyStartsWith_iff (s p : PyStr) :
    pyStartsWith s p = true ↔ ∃ rem, s = p ++ rem := by
  rw [pyStartsWith, List.isPrefixOf_iff_prefix]
  constructor
  · rintro ⟨rem, hrem⟩
    exact ⟨rem, hrem.symm⟩
  · rintro ⟨rem, rfl⟩
    exact List.prefix_append p rem

theorem pyStartsWith_append (p rem : PyStr) :
    pyStartsWith (p ++ rem) p = true :=
  (pyStartsWith_iff _ _).2 ⟨rem, rfl⟩

theorem transKey_not_start (p k : PyStr) (off : Int)
    (h : pyStartsWith k p = false) : transKey p off k = k := by
  rw [transKey, h]
  simp

theorem transKey_start_not_dec (p rem : PyStr) (off : Int)
    (h : isDecimal (splitOnceDot rem).1 = false) :
    transKey p off (p ++ rem) = p ++ rem := by
  rw [transKey, pyStartsWith_append]
  simp only [List.drop_left, h]
  simp

theorem transKey_start_dec (p rem : PyStr) (off : Int)
    (h : isDecimal (splitOnceDot rem).1 = true) :
    transKey p off (p ++ rem)
      = p ++ intToChars ((parseDec (splitOnceDot rem).1 : Int) + off)
          ++ sepOf (splitOnceDot rem).2 := by
  rw [transKey, pyStartsWith_append]
  simp only [List.drop_left, h]
  simp

theorem canonKey_spec (p rem : PyStr)
    (hc : canonKey p (p ++ rem) = true)
    (hd : isDecimal (splitOnceDot rem).1 = true) :
    natToChars (parseDec (splitOnceDot rem).1) = (splitOnceDot rem).1 := by
  rw [canonKey, pyStartsWith_append] at hc
  simp only [List.drop_left, hd] at hc
  simpa using hc

theorem transKey_left_inverse (p k : PyStr) (n : Nat)
    (hc : canonKey p k = true) :
    transKey p (-(n : Int)) (transKey p (n : Int) k) = k := by
  by_cases hs : pyStartsWith k p = true
  · obtain ⟨rem, rfl⟩ := (pyStartsWith_iff k p).1 hs
    by_cases hd : isDecimal (splitOnceDot rem).1 = true
    · have hcan := canonKey_spec p rem hc hd
      rw [transKey_start_dec p rem (n : Int) hd]
      have hmn : (parseDec (splitOnceDot rem).1 : Int) + (n : Int)
          = ((parseDec (splitOnceDot rem).1 + n : Nat) : Int) := by
        push_cast
        ring
      rw [hmn, intToChars_natCast, List.append_assoc]
      have hsplit : splitOnceDot
          (natToChars (parseDec (splitOnceDot rem).1 + n)
            ++ sepOf (splitOnceDot rem).2)
          = (natToChars (parseDec (splitOnceDot rem).1 + n),
             (splitOnceDot rem).2) :=
        splitOnceDot_append _ _ (dot_not_mem_natToChars _)
      rw [transKey_start_dec p _ (-(n : Int))
        (by rw [hsplit]; exact isDecimal_natToChars _)]
      rw [hsplit]
      have hback : (parseDec (natToChars (parseDec (splitOnceDot rem).1 + n))
            : Int) + (-(n : Int))
          = ((parseDec (splitOnceDot rem).1 : Nat) : Int) := by
        rw [parseDec_natToChars]
        push_cast
        ring
      rw [hback, intToChars_natCast, hcan, List.append_assoc,
        ← (splitOnceDot_eq rem).1]
    · have hd' : isDecimal (splitOnceDot rem).1 = false :=
        Bool.eq_false_iff.2 hd
      rw [transKey_start_not_dec p rem (n : Int) hd',
        transKey_start_not_dec p rem (-(n : Int)) hd']
  · have hs' : pyStartsWith k p = false :=
      Bool.eq_false_iff.2 hs
    rw [transKey_not_start p k (n : Int) hs',
      transKey_not_start p k (-(n : Int)) hs']

theorem filterMap_some_eq_map {α β : Type} (f : α → β) (l : List α) :
    l.filterMap (fun x => some (f x)) = l.map f := by
  rw [show (fun x => some (f x)) = some ∘ f from rfl, List.filterMap_eq_map]

theorem shift_layers_eq_map (t : Dict Tensor) (p : PyStr) (off : Int)
    (h : ((t.map (fun kv => (transKey p off kv.1, kv.2))).map
      Prod.fst).Nodup) :
    shift_layers t p off = t.map (fun kv => (transKey p off kv.1, kv.2)) := by
  rw [shift_layers]
  have hres := foldl_insert_eq_filterMap
    (fun kv : PyStr × Tensor => some (transKey p off kv.1, kv.2))
    (fun fixed kv => dictInsert fixed (transKey p off kv.1) kv.2)
    (fun a kv => rfl) t []
    (by rwa [filterMap_some_eq_map])
    (by intro k _ hk; simp [dictKeys] at hk)
  rw [hres, filterMap_some_eq_map]
  rfl

/-- Claim C4, counterexample: on a tensor set whose numeric segments are
not in canonical decimal form (here a leading zero: keys `d.04.w` and
`d.4.w`), shifting by +1 collapses both keys to `d.5.w`, so shifting
back by -1 does not restore the original mapping. -/
theorem C4_counterexample :
    shift_layers (shift_layers
        [(lit "d.04.w", Tensor.raw 0 NpDType.float32),
         (lit "d.4.w", Tensor.raw 1 NpDType.float32)]
        (lit "d.") ((1 : Nat) : Int)) (lit "d.") (-((1 : Nat) : Int))
      ≠ [(lit "d.04.w", Tensor.raw 0 NpDType.float32),
         (lit "d.4.w", Tensor.raw 1 NpDType.float32)] := by
  decide

/-- Claim C4 (amended): for a tensor set with duplicate-free keys whose
prefix-matching decimal index segments are canonically rendered (no
leading zeros), shifting the layers by `+n` (`n` a natural number) and
then by `-n` restores the key-to-tensor mapping exactly; in particular
the key transformation is injective on such keys. -/
theorem C4_shift_layers_round_trip (t : Dict Tensor) (p : PyStr) (n : Nat)
    (hnd : (dictKeys t).Nodup)
    (hc : ∀ k ∈ dictKeys t, canonKey p k = true) :
    shift_layers (shift_layers t p (n : Int)) p (-(n : Int)) = t := by
  have hinj : ∀ x ∈ dictKeys t, ∀ y ∈ dictKeys t,
      transKey p (n : Int) x = transKey p (n : Int) y → x = y := by
    intro x hx y hy hxy
    have hcongr := congrArg (transKey p (-(n : Int))) hxy
    rwa [transKey_left_inverse p x n (hc x hx),
      transKey_left_inverse p y n (hc y hy)] at hcongr
  have hnd1 : ((t.map (fun kv => (transKey p (n : Int) kv.1, kv.2))).map
      Prod.fst).Nodup := by
    rw [List.map_map,
      show (Prod.fst ∘ fun kv : PyStr × Tensor =>
          (transKey p (n : Int) kv.1, kv.2))
        = (transKey p (n : Int)) ∘ Prod.fst from rfl,
      ← List.map_map]
    exact List.Nodup.map_on hinj hnd
  rw [shift_layers_eq_map t p (n : Int) hnd1]
  have hkeys1 : (t.map (fun kv => (transKey p (n : Int) kv.1, kv.2))).map
      Prod.fst = (dictKeys t).map (transKey p (n : Int)) := by
    rw [List.map_map, dictKeys, List.map_map]
    rfl
  have hnd2 : (((t.map (fun kv => (transKey p (n : Int) kv.1, kv.2))).map
      (fun kv => (transKey p (-(n : Int)) kv.1, kv.2))).map
      Prod.fst).Nodup := by
    rw [List.map_map,
      show (Prod.fst ∘ fun kv : PyStr × Tensor =>
          (transKey p (-(n : Int)) kv.1, kv.2))
        = (transKey p (-(n : Int))) ∘ Prod.fst from rfl,
      ← List.map_map, hkeys1, List.map_map]
    have hid : (dictKeys t).map
        ((transKey p (-(n : Int))) ∘ (transKey p (n : Int))) = dictKeys t := by
      have hcg := List.map_congr_left
        (fun k hk => transKey_left_inverse p k n (hc k hk))
        (l := dictKeys t)
        (f := (transKey p (-(n : Int))) ∘ (transKey p (n : Int)))
        (g := id)
      rw [hcg, List.map_id]
    rw [hid]
    exact hnd
  rw [shift_layers_eq_map _ p (-(n : Int)) hnd2, List.map_map]
  have hpt : ∀ kv ∈ t,
      ((fun kv : PyStr × Tensor => (transKey p (-(n : Int)) kv.1, kv.2))
        ∘ fun kv : PyStr × Tensor => (transKey p (n : Int) kv.1, kv.2)) kv
      = id kv := by
    intro kv hkv
    have hk : kv.1 ∈ dictKeys t := List.mem_map_of_mem Prod.fst hkv
    show (transKey p (-(n : Int)) (transKey p (n : Int) kv.1), kv.2) = kv
    rw [transKey_left_inverse p kv.1 n (hc kv.1 hk)]
  rw [List.map_congr_left hpt, List.map_id]

/-- Claim C4 witness: a concrete canonical tensor set round-trips under
shifting by +2 then -2. -/
theorem C4_witness :
    (dictKeys [(lit "d.3.w", Tensor.raw 0 NpDType.float32)]).Nodup
  ∧ (∀ k ∈ dictKeys [(lit "d.3.w", Tensor.raw 0 NpDType.float32)],
      canonKey (lit "d.") k = true)
  ∧ shift_layers (shift_layers
      [(lit "d.3.w", Tensor.raw 0 NpDType.float32)]
      (lit "d.") ((2 : Nat) : Int)) (lit "d.") (-((2 : Nat) : Int))
      = [(lit "d.3.w", Tensor.raw 0 NpDType.float32)] :=
  ⟨by decide, by decide,
    C4_shift_layers_round_trip _ (lit "d.") 2 (by decide) (by decide)⟩

/-- Claim C1, counterexample: the keys `x.3.conv.4.bias` and
`x.8.conv.0.weight` end in the two anchor suffixes, yet `is_taesd`
returns false, because the flat-naming rule tests exact key membership
of `3.conv.4.bias` / `8.conv.0.weight`, not suffix matches. -/
theorem C1_counterexample :
    pyEndsWith (lit "x.3.conv.4.bias") (lit ".3.conv.4.bias") = true
  ∧ pyEndsWith (lit "x.8.conv.0.weight") (lit ".8.conv.0.weight") = true
  ∧ is_taesd [lit "x.3.conv.4.bias", lit "x.8.conv.0.weight"] = false := by
  decide

/-- Claim C1 (amended): for every header whose key set contains the
exact keys `3.conv.4.bias` and `8.conv.0.weight` (the flat/raw naming
convention, with no prefix), `is_taesd` returns true. -/
theorem C1_is_taesd_exact_keys (state_dict : Header)
    (h1 : lit "3.conv.4.bias" ∈ state_dict)
    (h2 : lit "8.conv.0.weight" ∈ state_dict) :
    is_taesd state_dict = true := by
  have hc1 : headerContains state_dict (lit "3.conv.4.bias") = true :=
    List.any_eq_true.2 ⟨_, h1, by simp⟩
  have hc2 : headerContains state_dict (lit "8.conv.0.weight") = true :=
    List.any_eq_true.2 ⟨_, h2, by simp⟩
  rw [is_taesd, hc1, hc2]
  simp

/-- Claim C1 witness: a concrete header with the two exact flat keys is
classified as TAESD. -/
theorem C1_witness :
    lit "3.conv.4.bias" ∈ [lit "3.conv.4.bias", lit "8.conv.0.weight"]
  ∧ lit "8.conv.0.weight" ∈ [lit "3.conv.4.bias", lit "8.conv.0.weight"]
  ∧ is_taesd [lit "3.conv.4.bias", lit "8.conv.0.weight"] = true :=
  ⟨by decide, by decide,
    C1_is_taesd_exact_keys _ (by decide) (by decide)⟩

/-- Claim C3: the header reader is total (all modelled exceptions are
caught) and returns the parsed header, or the empty header when the
file is shorter than 8 bytes, the declared header length exceeds the
ceiling, or the header bytes fail to parse. -/
theorem C3_get_safetensors_header_spec
    (parse : List Nat → Option Header) (file : List Nat)
    (size_limit : Nat) :
    (file.length < 8 → get_safetensors_header parse file size_limit = [])
  ∧ (8 ≤ file.length → size_limit < decodeLE (file.take 8) →
      get_safetensors_header parse file size_limit = [])
  ∧ (8 ≤ file.length → decodeLE (file.take 8) ≤ size_limit →
      parse ((file.drop 8).take (decodeLE (file.take 8))) = none →
      get_safetensors_header parse file size_limit = [])
  ∧ (∀ header, 8 ≤ file.length → decodeLE (file.take 8) ≤ size_limit →
      parse ((file.drop 8).take (decodeLE (file.take 8))) = some header →
      get_safetensors_header parse file size_limit = header) := by
  refine ⟨?_, ?_, ?_, ?_⟩
  · intro h
    simp only [get_safetensors_header, get_safetensors_header_body]
    rw [if_pos h]
  · intro h1 h2
    simp only [get_safetensors_header, get_safetensors_header_body]
    rw [if_neg (by omega), if_pos h2]
  · intro h1 h2 h3
    simp only [get_safetensors_header, get_safetensors_header_body]
    rw [if_neg (by omega), if_neg (by omega), h3]
  · intro header h1 h2 h3
    simp only [get_safetensors_header, get_safetensors_header_body]
    rw [if_neg (by omega), if_neg (by omega), h3]

/-- Claim C3 witness: a 4-byte file yields the empty header (and no
exception: the reader is a total function). -/
theorem C3_witness :
    ([0, 0, 0, 0] : List Nat).length < 8
  ∧ get_safetensors_header (fun _ => none) [0, 0, 0, 0] 67108864 = [] :=
  ⟨by decide,
    (C3_get_safetensors_header_spec (fun _ => none) [0, 0, 0, 0]
      67108864).1 (by decide)⟩

/-- Claim C5: building a labeled VAE checkpoint for architecture `f1`
with no dtype cast, when neither `vae_scale` nor `vae_shift` is present
in the merged tensor set, injects exactly `vae_scale = 0.3611` and
`vae_shift = +0.1159`; the paired-checkpoint adapter table records the
negative shift `-0.1159` for the same architecture. -/
theorem C5_build_tiny_vae_f1_scale_shift
    (enc_container dec_container : Dict Tensor) (enc_pfx dec_pfx : PyStr)
    (h : dictContains (dictMerge
          (load_tensors enc_container enc_pfx (lit "taesd_encoder"))
          (load_tensors dec_container dec_pfx (lit "taesd_decoder")))
          (lit "vae_scale") = false
      ∧ dictContains (dictMerge
          (load_tensors enc_container enc_pfx (lit "taesd_encoder"))
          (load_tensors dec_container dec_pfx (lit "taesd_decoder")))
          (lit "vae_shift") = false) :
    dictGet (build_tiny_vae enc_container enc_pfx dec_container dec_pfx
        (lit "f1") none) (lit "vae_scale")
      = some (Tensor.scalar (3611 / 10000) NpDType.float64)
  ∧ dictGet (build_tiny_vae enc_container enc_pfx dec_container dec_pfx
        (lit "f1") none) (lit "vae_shift")
      = some (Tensor.scalar (1159 / 10000) NpDType.float64)
  ∧ SCALE_SHIFT_BY_LATENT_FORMAT (lit "f1")
      = some (3611 / 10000, -(1159 / 10000)) := by
  refine ⟨?_, ?_, rfl⟩ <;>
  · simp only [build_tiny_vae]
    rw [if_pos h, if_neg (by decide : ¬ lit "f1" = lit "sd"),
      if_neg (by decide : ¬ lit "f1" = lit "sdxl"),
      if_neg (by decide : ¬ lit "f1" = lit "sd3"), if_pos trivial]
    first
      | rw [dictGet_insert_ne _ _ _ _
             (by decide : lit "vae_shift" ≠ lit "vae_scale"),
           dictGet_insert_self]
      | rw [dictGet_insert_self]

/-- Claim C5 witness: with empty encoder/decoder sources (no
pre-existing scale/shift keys), the f1 build contains exactly the two
injected scalars. -/
theorem C5_witness :
    (dictContains (dictMerge
        (load_tensors [] [] (lit "taesd_encoder"))
        (load_tensors [] [] (lit "taesd_decoder"))) (lit "vae_scale") = false
      ∧ dictContains (dictMerge
        (load_tensors [] [] (lit "taesd_encoder"))
        (load_tensors [] [] (lit "taesd_decoder"))) (lit "vae_shift") = false)
  ∧ dictGet (build_tiny_vae [] [] [] [] (lit "f1") none) (lit "vae_scale")
      = some (Tensor.scalar (3611 / 10000) NpDType.float64) :=
  ⟨⟨rfl, rfl⟩,
    (C5_build_tiny_vae_f1_scale_shift [] [] [] [] ⟨rfl, rfl⟩).1⟩

/-- Claim C7, counterexample: with the empty anchor suffix, the first
key `ab` matches (every string ends with the empty suffix), but the
resolver returns the empty string rather than the portion preceding the
suffix (which is all of `ab`), because Python `key[:-0]` is
`key[:0] = ""`. -/
theorem C7_counterexample :
    anchorMatches [] none (lit "ab") = true
  ∧ get_tensor_prefix [lit "ab"] [] none = []
  ∧ get_tensor_prefix [lit "ab"] [] none
      ≠ (lit "ab").take ((lit "ab").length - ([] : PyStr).length) := by
  refine ⟨by decide, rfl, by decide⟩

/-- Claim C7 (amended): for every header, non-empty anchor suffix, and
optional exclusion substring, the prefix resolver returns the portion
preceding the suffix of the first key, in stored order, that ends with
the suffix and does not contain the exclusion substring, and the empty
string when no key matches. -/
theorem get_tensor_prefix_cons (key : PyStr) (rest : Header)
    (post : PyStr) (notc : Option PyStr) :
    get_tensor_prefix (key :: rest) post notc
      = if pyEndsWith key post then
          match notc with
          | some sub =>
              if pyContains key sub then get_tensor_prefix rest post notc
              else pySliceDropLast key post.length
          | none => pySliceDropLast key post.length
        else get_tensor_prefix rest post notc := rfl

theorem C7_get_tensor_prefix_spec (state_dict : Header) (post : PyStr)
    (notc : Option PyStr) (hpost : post ≠ []) :
    get_tensor_prefix state_dict post notc
      = match state_dict.find? (anchorMatches post notc) with
        | some key => key.take (key.length - post.length)
        | none => [] := by
  have hlen : ¬ post.length = 0 :=
    fun h0 => hpost (List.eq_nil_of_length_eq_zero h0)
  induction state_dict with
  | nil => rfl
  | cons key rest ih =>
      rw [get_tensor_prefix_cons, List.find?_cons]
      by_cases he : pyEndsWith key post = true
      · cases notc with
        | none =>
            have hm : anchorMatches post none key = true := by
              rw [anchorMatches, he]
              rfl
            simp [he, hm, pySliceDropLast, if_neg hlen]
            exact fun h0 => absurd h0 hpost
        | some sub =>
            by_cases hcon : pyContains key sub = true
            · have hm : anchorMatches post (some sub) key = false := by
                rw [anchorMatches, he, hcon]
                rfl
              simp [he, hcon, hm, ih]
            · have hcon' : pyContains key sub = false :=
                Bool.eq_false_iff.2 hcon
              have hm : anchorMatches post (some sub) key = true := by
                rw [anchorMatches, he, hcon']
                rfl
              simp [he, hcon', hm, pySliceDropLast, if_neg hlen]
              exact fun h0 => absurd h0 hpost
      · have he' : pyEndsWith key post = false := Bool.eq_false_iff.2 he
        have hm : anchorMatches post notc key = false := by
          unfold anchorMatches
          rw [he']
          rfl
        simp [he', hm, ih]

/-- Claim C7 witness: on a concrete header the resolver returns the
prefix preceding the (non-empty) anchor suffix of the first matching
key, skipping a key that contains the exclusion substring. -/
theorem C7_witness :
    (lit ".3.conv.4.bias" ≠ [])
  ∧ get_tensor_prefix
      [lit "decoder.3.conv.4.bias", lit "enc.3.conv.4.bias"]
      (lit ".3.conv.4.bias") (some (lit "decoder"))
      = lit "enc" := by
  refine ⟨by decide, ?_⟩
  rw [C7_get_tensor_prefix_spec _ _ _ (by decide)]
  decide

/-- Claim C8: the role classifier depends on the file path only through
the documented filename fallback; whenever the header is empty, or not
a known family, or some key contains the role name as a substring, the
result is independent of the path. -/
theorem C8_is_taesd_with_role_path_independent (p1 p2 : PyStr)
    (state_dict : Header) (role : PyStr)
    (h : state_dict = [] ∨ is_taesd state_dict = false
      ∨ ∃ k ∈ state_dict, pyContains k role = true) :
    is_taesd_with_role p1 state_dict role
      = is_taesd_with_role p2 state_dict role := by
  by_cases h0 : state_dict = [] ∨ is_taesd state_dict = false
  · rw [is_taesd_with_role, is_taesd_with_role, if_pos h0, if_pos h0]
  · rcases h with h | h | ⟨k, hk, hp⟩
    · exact absurd (Or.inl h) h0
    · exact absurd (Or.inr h) h0
    · have hany : state_dict.any (fun key => pyContains key role) = true :=
        List.any_eq_true.2 ⟨k, hk, hp⟩
      rw [is_taesd_with_role, is_taesd_with_role, if_neg h0, if_neg h0,
        hany]
      rfl

/-- Claim C8 witness: a header with a role-bearing key is classified
identically under two different file paths. -/
theorem C8_witness :
    (∃ k ∈ [lit "taesd_encoder_w"], pyContains k (lit "encoder") = true)
  ∧ is_taesd_with_role (lit "a") [lit "taesd_encoder_w"] (lit "encoder")
      = is_taesd_with_role (lit "some/other/path.safetensors")
          [lit "taesd_encoder_w"] (lit "encoder") :=
  ⟨by decide,
    C8_is_taesd_with_role_path_independent _ _ _ _
      (Or.inr (Or.inr (by decide)))⟩

theorem find_taesd_with_role_vae_miss (input_files : List (PyStr × Header))
    (role : PyStr)
    (h : ∀ f ∈ input_files, is_taesd_with_role f.1 f.2 role = false) :
    find_taesd_with_role_vae input_files role = ([], []) := by
  induction input_files with
  | nil => rfl
  | cons f rest ih =>
      rw [find_taesd_with_role_vae]
      rw [h f (List.mem_cons_self f rest)]
      simp only [Bool.false_eq_true, if_false]
      exact ih (fun g hg => h g (List.mem_cons_of_mem f hg))

theorem find_taesd_with_role_miss (input_files : List (PyStr × Header))
    (role : PyStr)
    (h : ∀ f ∈ input_files, is_taesd_with_role f.1 f.2 role = false) :
    find_taesd_with_role input_files role = none := by
  induction input_files with
  | nil => rfl
  | cons f rest ih =>
      rw [find_taesd_with_role]
      rw [h f (List.mem_cons_self f rest)]
      simp only [Bool.false_eq_true, if_false]
      exact ih (fun g hg => h g (List.mem_cons_of_mem f hg))

/-- Claim C2, counterexample: two input files are classified as TAESD
encoder and decoder, their prefix resolution yields the empty string
(no key ends in `.3.conv.4.bias`), and yet the labeled-VAE main flow
does not fail: it proceeds to projection with both source prefixes
empty, because the fatal check only tests the file *path* for
emptiness. -/
theorem C2_counterexample :
    vae_main_select
        [(lit "a", [lit "taesd_encoder_w"]),
         (lit "b", [lit "taesd_decoder_w"])]
      = Except.ok ((lit "a", ([] : PyStr)), (lit "b", ([] : PyStr))) := rfl

/-- Claim C2 (amended): a *missing* encoder or decoder source (no input
file classified for the role) is a hard failure before any projection,
in both the labeled-VAE flow and the paired-module transcoder flow; an
empty prefix resolution on a successfully classified file, however,
does not terminate the run. -/
theorem C2_missing_source_is_fatal :
    (∀ input_files : List (PyStr × Header),
      (∀ f ∈ input_files,
        is_taesd_with_role f.1 f.2 (lit "encoder") = false) →
      vae_main_select input_files = Except.error ())
  ∧ (∀ input_files : List (PyStr × Header),
      (∀ f ∈ input_files,
        is_taesd_with_role f.1 f.2 (lit "decoder") = false) →
      vae_main_select input_files = Except.error ())
  ∧ (∀ encoder_files decoder_files : List (PyStr × Header),
      (∀ f ∈ encoder_files,
        is_taesd_with_role f.1 f.2 (lit "encoder") = false) →
      transcoder_main_select encoder_files decoder_files
        = Except.error ())
  ∧ (∀ encoder_files decoder_files : List (PyStr × Header),
      (∀ f ∈ decoder_files,
        is_taesd_with_role f.1 f.2 (lit "decoder") = false) →
      transcoder_main_select encoder_files decoder_files
        = Except.error ()) := by
  refine ⟨?_, ?_, ?_, ?_⟩
  · intro files h
    simp only [vae_main_select, find_taesd_with_role_vae_miss files _ h]
    rfl
  · intro files h
    simp only [vae_main_select, find_taesd_with_role_vae_miss files _ h]
    by_cases h1 : (find_taesd_with_role_vae files (lit "encoder")).1 = []
    · rw [if_pos h1]
    · rw [if_neg h1, if_pos trivial]
  · intro encs decs h
    rw [transcoder_main_select, find_taesd_with_role_miss encs _ h]
  · intro encs decs h
    rw [transcoder_main_select, find_taesd_with_role_miss decs _ h]
    cases find_taesd_with_role encs (lit "encoder") <;> rfl

/-- Claim C2 witness: with a single unclassifiable input file (empty
header), both selection flows fail fatally. -/
theorem C2_witness :
    (∀ f ∈ [((lit "x"), ([] : Header))],
      is_taesd_with_role f.1 f.2 (lit "encoder") = false)
  ∧ vae_main_select [((lit "x"), ([] : Header))] = Except.error () :=
  ⟨by decide,
    C2_missing_source_is_fatal.1 [((lit "x"), ([] : Header))] (by decide)⟩

theorem load_tensors_empty_pfx_eq_map (container : Dict Tensor)
    (target_pfx : PyStr) (h : (dictKeys container).Nodup) :
    load_tensors container [] target_pfx
      = container.map (fun kv => (normDot target_pfx ++ kv.1, kv.2)) := by
  have hkeys : ((container.filterMap
      (fun kv : PyStr × Tensor =>
        some (normDot target_pfx ++ kv.1, kv.2))).map Prod.fst).Nodup := by
    rw [filterMap_some_eq_map, List.map_map,
      show (Prod.fst ∘ fun kv : PyStr × Tensor =>
          (normDot target_pfx ++ kv.1, kv.2))
        = (fun s => normDot target_pfx ++ s) ∘ Prod.fst from rfl,
      ← List.map_map]
    exact List.Nodup.map (List.append_right_injective (normDot target_pfx)) h
  have hres := foldl_insert_eq_filterMap
    (fun kv : PyStr × Tensor => some (normDot target_pfx ++ kv.1, kv.2))
    (fun tensors kv =>
      if pyStartsWith kv.1 (normDot []) then
        dictInsert tensors
          (normDot target_pfx ++ kv.1.drop (normDot ([] : PyStr)).length)
          kv.2
      else tensors)
    (fun a kv => by simp [normDot, pyStartsWith, List.isPrefixOf])
    container []
    hkeys
    (by intro k _ hk; simp [dictKeys] at hk)
  rw [show load_tensors container [] target_pfx
      = container.foldl
          (fun tensors kv =>
            if pyStartsWith kv.1 (normDot []) then
              dictInsert tensors
                (normDot target_pfx
                  ++ kv.1.drop (normDot ([] : PyStr)).length)
                kv.2
            else tensors) [] from rfl,
    hres, filterMap_some_eq_map]
  rfl

/-- Claim C9: with an empty source prefix every key of the container
matches (prefix normalisation leaves the empty prefix empty and every
string starts with the empty string), so the projection returns the
whole container with the normalised target prefix prepended to every
key, omitting nothing. -/
theorem C9_load_tensors_empty_source_pfx (container : Dict Tensor)
    (target_pfx : PyStr) (h : (dictKeys container).Nodup) :
    load_tensors container [] target_pfx
      = container.map (fun kv => (normDot target_pfx ++ kv.1, kv.2)) :=
  load_tensors_empty_pfx_eq_map container target_pfx h

/-- Claim C9 witness: a concrete two-key container is projected whole
under an empty source prefix, with the normalised target prefix
prepended to each key. -/
theorem C9_witness :
    (dictKeys [(lit "a.x", Tensor.raw 0 NpDType.float32),
               (lit "b.y", Tensor.raw 1 NpDType.float32)]).Nodup
  ∧ load_tensors
      [(lit "a.x", Tensor.raw 0 NpDType.float32),
       (lit "b.y", Tensor.raw 1 NpDType.float32)] [] (lit "T")
      = [(lit "T.a.x", Tensor.raw 0 NpDType.float32),
         (lit "T.b.y", Tensor.raw 1 NpDType.float32)] := by
  refine ⟨by decide, ?_⟩
  rw [C9_load_tensors_empty_source_pfx _ (lit "T") (by decide)]
  rfl

theorem dictGet_isSome_of_mem {α : Type} (d : Dict α) (k : PyStr)
    (h : k ∈ dictKeys d) : (dictGet d k).isSome = true := by
  induction d with
  | nil => simp [dictKeys] at h
  | cons kv rest ih =>
      obtain ⟨k₀, v₀⟩ := kv
      by_cases h₀ : k₀ = k
      · simp [dictGet, h₀]
      · rw [dictKeys_cons, List.mem_cons] at h
        rcases h with h | h
        · exact absurd h.symm h₀
        · rw [show dictGet ((k₀, v₀) :: rest) k
              = if k₀ = k then some v₀ else dictGet rest k from rfl,
            if_neg h₀]
          exact ih h

theorem not_mem_of_dictContains_false {α : Type} (d : Dict α) (k : PyStr)
    (h : dictContains d k = false) : k ∉ dictKeys d := by
  intro hm
  rw [dictContains, dictGet_isSome_of_mem d k hm] at h
  exact absurd h (by simp)

theorem nodup_keys_load_tensors (container : Dict Tensor)
    (pfx tgt : PyStr) :
    (dictKeys (load_tensors container pfx tgt)).Nodup :=
  nodup_keys_foldl_insert
    (fun kv : PyStr × Tensor =>
      if pyStartsWith kv.1 (normDot pfx) then
        some (normDot tgt ++ kv.1.drop (normDot pfx).length, kv.2)
      else none)
    (fun tensors kv =>
      if pyStartsWith kv.1 (normDot pfx) then
        dictInsert tensors (normDot tgt ++ kv.1.drop (normDot pfx).length)
          kv.2
      else tensors)
    (fun a kv => by
      by_cases h : pyStartsWith kv.1 (normDot pfx) = true <;> simp [h])
    container [] (by simp [dictKeys])

theorem nodup_keys_dictMerge {α : Type} (a b : Dict α)
    (ha : (dictKeys a).Nodup) : (dictKeys (dictMerge a b)).Nodup :=
  nodup_keys_foldl_insert (fun kv : PyStr × α => some kv)
    (fun acc kv => dictInsert acc kv.1 kv.2) (fun a kv => rfl) b a ha

theorem nodup_keys_shift_layers (t : Dict Tensor) (p : PyStr) (off : Int) :
    (dictKeys (shift_layers t p off)).Nodup :=
  nodup_keys_foldl_insert
    (fun kv : PyStr × Tensor => some (transKey p off kv.1, kv.2))
    (fun fixed kv => dictInsert fixed (transKey p off kv.1) kv.2)
    (fun a kv => rfl) t [] (by simp [dictKeys])

theorem mem_keys_shift_layers (t : Dict Tensor) (p : PyStr) (off : Int)
    (k : PyStr) (h : k ∈ dictKeys (shift_layers t p off)) :
    ∃ kv ∈ t, transKey p off kv.1 = k := by
  have hmem := mem_keys_foldl_insert
    (fun kv : PyStr × Tensor => some (transKey p off kv.1, kv.2))
    (fun fixed kv => dictInsert fixed (transKey p off kv.1) kv.2)
    (fun a kv => rfl) t [] k h
  rcases hmem with h' | ⟨kv, hm, kv', hf, hk⟩
  · simp [dictKeys] at h'
  · have hkv' : kv' = (transKey p off kv.1, kv.2) := (Option.some.inj hf).symm
    subst hkv'
    exact ⟨kv, hm, hk⟩

theorem cast_fold_eq_map (d : Dict Tensor) (dt : NpDType)
    (h : (dictKeys d).Nodup) :
    d.foldl (fun conv kv => dictInsert conv kv.1 (kv.2.astype dt)) []
      = d.map (fun kv => (kv.1, kv.2.astype dt)) := by
  have hres := foldl_insert_eq_filterMap
    (fun kv : PyStr × Tensor => some (kv.1, kv.2.astype dt))
    (fun conv kv => dictInsert conv kv.1 (kv.2.astype dt))
    (fun a kv => rfl) d []
    (by rw [filterMap_some_eq_map, List.map_map]; exact h)
    (by intro k _ hk; simp [dictKeys] at hk)
  rw [hres, filterMap_some_eq_map]
  rfl

/-- Applying the +1 decoder-layer shift never yields the key
`decoder.0.weight`: shifted keys carry index at least 1, and unshifted
keys cannot be `decoder.0.weight` (its segment `0` is decimal, so it
would have been shifted). -/
theorem transKey_decoder_shift_ne (key : PyStr) :
    transKey DECODER_PFX 1 key ≠ lit "decoder.0.weight" := by
  intro h
  by_cases hs : pyStartsWith key DECODER_PFX = true
  · obtain ⟨rem, rfl⟩ := (pyStartsWith_iff key DECODER_PFX).1 hs
    by_cases hd : isDecimal (splitOnceDot rem).1 = true
    · rw [transKey_start_dec _ _ _ hd] at h
      have hr : lit "decoder.0.weight"
          = DECODER_PFX ++ (['0'] ++ sepOf (some (lit "weight"))) := by
        decide
      rw [hr, List.append_assoc] at h
      have h2 := List.append_cancel_left h
      have hmn : (parseDec (splitOnceDot rem).1 : Int) + 1
          = ((parseDec (splitOnceDot rem).1 + 1 : Nat) : Int) := by
        push_cast
        ring
      rw [hmn, intToChars_natCast] at h2
      have h3 := congrArg splitOnceDot h2
      rw [splitOnceDot_append _ _ (dot_not_mem_natToChars _),
        splitOnceDot_append _ _ (by decide)] at h3
      have h4 : natToChars (parseDec (splitOnceDot rem).1 + 1) = ['0'] :=
        congrArg Prod.fst h3
      have h5 := congrArg parseDec h4
      rw [parseDec_natToChars] at h5
      rw [show parseDec ['0'] = 0 from by decide] at h5
      omega
    · rw [transKey_start_not_dec _ _ _ (Bool.eq_false_iff.2 hd)] at h
      have hr : lit "decoder.0.weight" = DECODER_PFX ++ lit "0.weight" := by
        decide
      rw [hr] at h
      have h2 := List.append_cancel_left h
      rw [h2] at hd
      exact hd (by decide)
  · rw [transKey_not_start _ _ _ (Bool.eq_false_iff.2 hs)] at h
    rw [h] at hs
    exact hs (by decide)

/-- Claim C6, counterexample: the claim asserts a 32-bit-float
`gaussian_blur_sigma` for *every* sdxl-to-sd build, but a build with a
requested float16 cast stores the injected scalar as float16. -/
theorem C6_counterexample :
    dictGet (build_tiny_transcoder [] [] [] [] true (lit "sdxl") (lit "sd")
        (some NpDType.float16)) (lit "gaussian_blur_sigma")
      = some (Tensor.scalar (1 / 2) NpDType.float16)
  ∧ Tensor.scalar (1 / 2) NpDType.float16
      ≠ Tensor.scalar (1 / 2) NpDType.float32 := by
  refine ⟨rfl, ?_⟩
  intro h
  injection h with h1 h2
  exact absurd h2 (by decide)

/-- Claim C6 (amended): every paired-module build from latent format
sdxl to sd contains `gaussian_blur_sigma` with scalar value 0.5, stored
as 32-bit float unless a dtype cast was requested (in which case it is
cast along with everything else), and contains no `decoder.0.weight`
key: a merged `decoder.0.weight` triggers the +1 layer renumbering,
which never reproduces that key. -/
theorem C6_transcoder_sdxl_to_sd
    (enc_container dec_container : Dict Tensor) (enc_pfx dec_pfx : PyStr)
    (use_unnormalized_adapter : Bool) (dtype : Option NpDType) :
    dictGet (build_tiny_transcoder enc_container enc_pfx dec_container
        dec_pfx use_unnormalized_adapter (lit "sdxl") (lit "sd") dtype)
      (lit "gaussian_blur_sigma")
      = some (Tensor.scalar (1 / 2) (dtype.getD NpDType.float32))
  ∧ dictGet (build_tiny_transcoder enc_container enc_pfx dec_container
        dec_pfx use_unnormalized_adapter (lit "sdxl") (lit "sd") dtype)
      (lit "decoder.0.weight") = none := by
  have hnd_m := nodup_keys_dictMerge
    (load_tensors enc_container enc_pfx ENCODER_PFX)
    (load_tensors dec_container dec_pfx DECODER_PFX)
    (nodup_keys_load_tensors _ _ _)
  obtain ⟨T, hT, hndT, hd0T⟩ :
      ∃ T : Dict Tensor,
        (if dictContains (dictMerge
            (load_tensors enc_container enc_pfx ENCODER_PFX)
            (load_tensors dec_container dec_pfx DECODER_PFX))
            (DECODER_PFX ++ lit "0.weight") then
          shift_layers (dictMerge
            (load_tensors enc_container enc_pfx ENCODER_PFX)
            (load_tensors dec_container dec_pfx DECODER_PFX))
            DECODER_PFX 1
        else dictMerge
            (load_tensors enc_container enc_pfx ENCODER_PFX)
            (load_tensors dec_container dec_pfx DECODER_PFX)) = T
        ∧ (dictKeys T).Nodup
        ∧ lit "decoder.0.weight" ∉ dictKeys T := by
    by_cases hcm : dictContains (dictMerge
        (load_tensors enc_container enc_pfx ENCODER_PFX)
        (load_tensors dec_container dec_pfx DECODER_PFX))
        (DECODER_PFX ++ lit "0.weight") = true
    · refine ⟨_, if_pos hcm, nodup_keys_shift_layers _ _ _, ?_⟩
      intro hmem
      obtain ⟨kv, _, hk⟩ := mem_keys_shift_layers _ _ _ _ hmem
      exact transKey_decoder_shift_ne kv.1 hk
    · refine ⟨_, if_neg hcm, hnd_m, ?_⟩
      refine not_mem_of_dictContains_false _ _ ?_
      rw [show lit "decoder.0.weight" = DECODER_PFX ++ lit "0.weight"
        from by decide]
      exact Bool.eq_false_iff.2 hcm
  have hg_B : dictGet (dictInsert T (lit "gaussian_blur_sigma")
        (Tensor.scalar (1 / 2) NpDType.float32)) (lit "gaussian_blur_sigma")
      = some (Tensor.scalar (1 / 2) NpDType.float32) :=
    dictGet_insert_self _ _ _
  have hd_B : dictGet (dictInsert T (lit "gaussian_blur_sigma")
        (Tensor.scalar (1 / 2) NpDType.float32)) (lit "decoder.0.weight")
      = none := by
    rw [dictGet_insert_ne _ _ _ _ (by decide)]
    exact dictGet_eq_none_of_not_mem _ _ hd0T
  have hnd_B : (dictKeys (dictInsert T (lit "gaussian_blur_sigma")
      (Tensor.scalar (1 / 2) NpDType.float32))).Nodup :=
    dictKeys_insert_nodup _ _ _ hndT
  simp only [build_tiny_transcoder]
  rw [hT]
  rw [if_pos (show True ∧ True from ⟨trivial, trivial⟩)]
  obtain ⟨A, hA, hgA, hdA, hndA⟩ :
      ∃ A : Dict Tensor,
        (if use_unnormalized_adapter then
          dictInsert (dictInsert (dictInsert (dictInsert
            (dictInsert T (lit "gaussian_blur_sigma")
              (Tensor.scalar (1 / 2) NpDType.float32))
            (lit "unnormalized_adapter_in.scale_factor")
              (Tensor.scalar (scaleShiftGet (lit "sdxl")).1 NpDType.float32))
            (lit "unnormalized_adapter_in.shift_factor")
              (Tensor.scalar (scaleShiftGet (lit "sdxl")).2 NpDType.float32))
            (lit "unnormalized_adapter_out.scale_factor")
              (Tensor.scalar (scaleShiftGet (lit "sd")).1 NpDType.float32))
            (lit "unnormalized_adapter_out.shift_factor")
              (Tensor.scalar (scaleShiftGet (lit "sd")).2 NpDType.float32)
        else dictInsert T (lit "gaussian_blur_sigma")
          (Tensor.scalar (1 / 2) NpDType.float32)) = A
        ∧ dictGet A (lit "gaussian_blur_sigma")
            = some (Tensor.scalar (1 / 2) NpDType.float32)
        ∧ dictGet A (lit "decoder.0.weight") = none
        ∧ (dictKeys A).Nodup := by
    cases use_unnormalized_adapter with
    | false => exact ⟨_, if_neg (by simp), hg_B, hd_B, hnd_B⟩
    | true =>
        refine ⟨_, if_pos rfl, ?_, ?_, ?_⟩
        · rw [dictGet_insert_ne _ _ _ _ (by decide),
            dictGet_insert_ne _ _ _ _ (by decide),
            dictGet_insert_ne _ _ _ _ (by decide),
            dictGet_insert_ne _ _ _ _ (by decide)]
          exact hg_B
        · rw [dictGet_insert_ne _ _ _ _ (by decide),
            dictGet_insert_ne _ _ _ _ (by decide),
            dictGet_insert_ne _ _ _ _ (by decide),
            dictGet_insert_ne _ _ _ _ (by decide)]
          exact hd_B
        · exact dictKeys_insert_nodup _ _ _ (dictKeys_insert_nodup _ _ _
            (dictKeys_insert_nodup _ _ _ (dictKeys_insert_nodup _ _ _
              hnd_B)))
  rw [hA]
  cases dtype with
  | none => exact ⟨hgA, hdA⟩
  | some dt =>
      show dictGet (A.foldl
          (fun conv kv => dictInsert conv kv.1 (kv.2.astype dt)) [])
          (lit "gaussian_blur_sigma")
          = some (Tensor.scalar (1 / 2) ((some dt).getD NpDType.float32))
        ∧ dictGet (A.foldl
          (fun conv kv => dictInsert conv kv.1 (kv.2.astype dt)) [])
          (lit "decoder.0.weight") = none
      rw [cast_fold_eq_map A dt hndA]
      constructor
      · rw [dictGet_map_value A (fun v => v.astype dt)
            (lit "gaussian_blur_sigma"), hgA]
        rfl
      · rw [dictGet_map_value A (fun v => v.astype dt)
            (lit "decoder.0.weight"), hdA]
        rfl

theorem pyReplaceFirst_of_startsWith (old new s : PyStr)
    (h : pyStartsWith s old = true) :
    pyReplaceFirst old new s = new ++ s.drop old.length := by
  cases s with
  | nil =>
      rw [pyReplaceFirst, if_pos (by exact h)]
      simp
  | cons c rest =>
      rw [pyReplaceFirst, if_pos (by exact h)]

theorem mem_keys_led_fold (e d : PyStr) :
    ∀ (l : List (PyStr × Tensor)) (acc : Dict Tensor) (k : PyStr),
      k ∈ dictKeys (l.foldl
        (fun out kv =>
          if pyStartsWith kv.1 (lit "taesd_encoder.") then
            dictInsert out (pyReplaceFirst (lit "taesd_encoder.") e kv.1)
              kv.2
          else if pyStartsWith kv.1 (lit "taesd_decoder.") then
            dictInsert out (pyReplaceFirst (lit "taesd_decoder.") d kv.1)
              kv.2
          else if kv.1 = lit "vae_scale" then
            dictInsert (dictInsert out (e ++ lit "vae_scale") kv.2)
              (d ++ lit "vae_scale") kv.2
          else if kv.1 = lit "vae_shift" then
            dictInsert (dictInsert out (e ++ lit "vae_shift") kv.2)
              (d ++ lit "vae_shift") kv.2
          else out) acc) →
      k ∈ dictKeys acc
      ∨ pyStartsWith k e = true ∨ pyStartsWith k d = true := by
  intro l
  induction l with
  | nil => intro acc k h; exact Or.inl h
  | cons kv rest ih =>
      intro acc k h
      rw [List.foldl_cons] at h
      have hstep : ∀ acc' : Dict Tensor,
          k ∈ dictKeys acc' →
          (∀ k' ∈ dictKeys acc', k' ∈ dictKeys acc
            ∨ pyStartsWith k' e = true ∨ pyStartsWith k' d = true) →
          k ∈ dictKeys acc
            ∨ pyStartsWith k e = true ∨ pyStartsWith k d = true :=
        fun acc' hk hall => hall k hk
      rcases ih _ k h with hk | hk | hk
      · -- k is a key of the accumulator produced by one step
        by_cases h1 : pyStartsWith kv.1 (lit "taesd_encoder.") = true
        · rw [if_pos h1] at hk
          rcases mem_dictKeys_insert _ _ _ _ hk with hk' | hk'
          · subst hk'
            rw [pyReplaceFirst_of_startsWith _ _ _ h1]
            exact Or.inr (Or.inl (pyStartsWith_append e _))
          · exact Or.inl hk'
        · rw [if_neg h1] at hk
          by_cases h2 : pyStartsWith kv.1 (lit "taesd_decoder.") = true
          · rw [if_pos h2] at hk
            rcases mem_dictKeys_insert _ _ _ _ hk with hk' | hk'
            · subst hk'
              rw [pyReplaceFirst_of_startsWith _ _ _ h2]
              exact Or.inr (Or.inr (pyStartsWith_append d _))
            · exact Or.inl hk'
          · rw [if_neg h2] at hk
            by_cases h3 : kv.1 = lit "vae_scale"
            · rw [if_pos h3] at hk
              rcases mem_dictKeys_insert _ _ _ _ hk with hk' | hk'
              · subst hk'
                exact Or.inr (Or.inr (pyStartsWith_append d _))
              · rcases mem_dictKeys_insert _ _ _ _ hk' with hk'' | hk''
                · subst hk''
                  exact Or.inr (Or.inl (pyStartsWith_append e _))
                · exact Or.inl hk''
            · rw [if_neg h3] at hk
              by_cases h4 : kv.1 = lit "vae_shift"
              · rw [if_pos h4] at hk
                rcases mem_dictKeys_insert _ _ _ _ hk with hk' | hk'
                · subst hk'
                  exact Or.inr (Or.inr (pyStartsWith_append d _))
                · rcases mem_dictKeys_insert _ _ _ _ hk' with hk'' | hk''
                  · subst hk''
                    exact Or.inr (Or.inl (pyStartsWith_append e _))
                  · exact Or.inl hk''
              · rw [if_neg h4] at hk
                exact Or.inl hk
      · exact Or.inr (Or.inl hk)
      · exact Or.inr (Or.inr hk)

theorem mem_keys_load_encoder_decoder (container : Dict Tensor)
    (pfx target_pfx : PyStr) (k : PyStr)
    (h : k ∈ dictKeys (load_encoder_decoder container pfx target_pfx)) :
    pyStartsWith k (normDot target_pfx ++ lit "encoder.") = true
    ∨ pyStartsWith k (normDot target_pfx ++ lit "decoder.") = true := by
  have hfold := mem_keys_led_fold
    (normDot target_pfx ++ lit "encoder.")
    (normDot target_pfx ++ lit "decoder.")
    (load_tensors container (normDot pfx) []) [] k h
  rcases hfold with h' | h' | h'
  · simp [dictKeys] at h'
  · exact Or.inl h'
  · exact Or.inr h'

theorem mem_keys_dictMerge {α : Type} (a b : Dict α) (k : PyStr)
    (h : k ∈ dictKeys (dictMerge a b)) :
    k ∈ dictKeys a ∨ k ∈ dictKeys b := by
  have hmem := mem_keys_foldl_insert (fun kv : PyStr × α => some kv)
    (fun acc kv => dictInsert acc kv.1 kv.2) (fun a kv => rfl) b a k h
  rcases hmem with h' | ⟨kv, hm, kv', hf, hk⟩
  · exact Or.inl h'
  · have : kv' = kv := (Option.some.inj hf).symm
    subst this
    subst hk
    exact Or.inr (List.mem_map_of_mem Prod.fst hm)

theorem mem_keys_cast_fold (d : Dict Tensor) (dt : NpDType) (k : PyStr)
    (h : k ∈ dictKeys (d.foldl
      (fun conv kv => dictInsert conv kv.1 (kv.2.astype dt)) [])) :
    k ∈ dictKeys d := by
  have hmem := mem_keys_foldl_insert
    (fun kv : PyStr × Tensor => some (kv.1, kv.2.astype dt))
    (fun conv kv => dictInsert conv kv.1 (kv.2.astype dt))
    (fun a kv => rfl) d [] k h
  rcases hmem with h' | ⟨kv, hm, kv', hf, hk⟩
  · simp [dictKeys] at h'
  · have hkv : kv' = (kv.1, kv.2.astype dt) := (Option.some.inj hf).symm
    subst hkv
    have hkk : kv.1 = k := hk
    rw [← hkk]
    exact List.mem_map_of_mem Prod.fst hm

theorem mem_keys_load_tensors_start (container : Dict Tensor)
    (pfx target_pfx : PyStr) (k : PyStr)
    (h : k ∈ dictKeys (load_tensors container pfx target_pfx)) :
    pyStartsWith k (normDot target_pfx) = true := by
  have hmem := mem_keys_foldl_insert
    (fun kv : PyStr × Tensor =>
      if pyStartsWith kv.1 (normDot pfx) then
        some (normDot target_pfx ++ kv.1.drop (normDot pfx).length, kv.2)
      else none)
    (fun tensors kv =>
      if pyStartsWith kv.1 (normDot pfx) then
        dictInsert tensors
          (normDot target_pfx ++ kv.1.drop (normDot pfx).length) kv.2
      else tensors)
    (fun a kv => by
      by_cases hc : pyStartsWith kv.1 (normDot pfx) = true <;> simp [hc])
    container [] k h
  rcases hmem with h' | ⟨kv, hm, kv', hf, hk⟩
  · simp [dictKeys] at h'
  · by_cases hc : pyStartsWith kv.1 (normDot pfx) = true
    · simp only [hc, if_true] at hf
      have hkv : kv'
          = (normDot target_pfx ++ kv.1.drop (normDot pfx).length, kv.2) :=
        (Option.some.inj hf).symm
      subst hkv
      have hkk : normDot target_pfx ++ kv.1.drop (normDot pfx).length = k :=
        hk
      rw [← hkk]
      exact pyStartsWith_append _ _
    · simp only [Bool.eq_false_iff.2 hc, if_false] at hf
      exact absurd hf (by simp)

theorem foldl_congr_skip {σ α : Type} (step : σ → α → σ) (p : α → Bool)
    (hskip : ∀ acc x, p x = false → step acc x = acc) :
    ∀ (l : List α) (acc : σ),
      l.foldl step acc = (l.filter p).foldl step acc := by
  intro l
  induction l with
  | nil => intro acc; rfl
  | cons x rest ih =>
      intro acc
      rw [List.foldl_cons]
      by_cases hx : p x = true
      · rw [List.filter_cons_of_pos hx, List.foldl_cons]
        exact ih _
      · rw [hskip acc x (Bool.eq_false_iff.2 hx),
          List.filter_cons_of_neg (by simpa using hx)]
        exact ih _

theorem load_tensors_empty_both (container : Dict Tensor)
    (h : (dictKeys container).Nodup) :
    load_tensors container [] [] = container := by
  rw [load_tensors_empty_pfx_eq_map container [] h]
  have hpt : ∀ kv ∈ container,
      (normDot ([] : PyStr) ++ kv.1, kv.2) = id kv := fun kv _ => rfl
  rw [List.map_congr_left hpt, List.map_id]

theorem load_encoder_decoder_eq_fold (container : Dict Tensor)
    (target_pfx : PyStr) (h : (dictKeys container).Nodup) :
    load_encoder_decoder container [] target_pfx
      = container.foldl
        (fun out kv =>
          if pyStartsWith kv.1 (lit "taesd_encoder.") then
            dictInsert out (pyReplaceFirst (lit "taesd_encoder.")
              (normDot target_pfx ++ lit "encoder.") kv.1) kv.2
          else if pyStartsWith kv.1 (lit "taesd_decoder.") then
            dictInsert out (pyReplaceFirst (lit "taesd_decoder.")
              (normDot target_pfx ++ lit "decoder.") kv.1) kv.2
          else if kv.1 = lit "vae_scale" then
            dictInsert (dictInsert out
              (normDot target_pfx ++ lit "encoder." ++ lit "vae_scale")
              kv.2)
              (normDot target_pfx ++ lit "decoder." ++ lit "vae_scale")
              kv.2
          else if kv.1 = lit "vae_shift" then
            dictInsert (dictInsert out
              (normDot target_pfx ++ lit "encoder." ++ lit "vae_shift")
              kv.2)
              (normDot target_pfx ++ lit "decoder." ++ lit "vae_shift")
              kv.2
          else out) [] := by
  show (load_tensors container (normDot []) []).foldl _ [] = _
  rw [show normDot ([] : PyStr) = [] from rfl,
    load_tensors_empty_both container h]

/-- Claim C10: (a) every key of the composite auxiliary build starts
with one of the five namespaces `first_stage_model.sd.encoder.`,
`first_stage_model.sd.decoder.`, `first_stage_model.xl.encoder.`,
`first_stage_model.xl.decoder.`, `transcoder.`; (b) a top-level key of
a VAE input that is not under `taesd_encoder.` or `taesd_decoder.` and
is not exactly `vae_scale` / `vae_shift` is dropped: removing all such
keys from the input leaves the output unchanged. -/
theorem C10_build_auxiliary_namespaces :
    (∀ (tiny_vae_sd tiny_vae_sdxl tiny_transcoder : Dict Tensor)
        (dtype : Option NpDType) (k : PyStr),
      k ∈ dictKeys (build_auxiliary tiny_vae_sd tiny_vae_sdxl
        tiny_transcoder dtype) →
      pyStartsWith k (lit "first_stage_model.sd.encoder.") = true
      ∨ pyStartsWith k (lit "first_stage_model.sd.decoder.") = true
      ∨ pyStartsWith k (lit "first_stage_model.xl.encoder.") = true
      ∨ pyStartsWith k (lit "first_stage_model.xl.decoder.") = true
      ∨ pyStartsWith k (lit "transcoder.") = true)
  ∧ (∀ (container : Dict Tensor) (target_pfx : PyStr),
      (dictKeys container).Nodup →
      load_encoder_decoder container [] target_pfx
        = load_encoder_decoder
            (container.filter (fun kv => vaeTopLevelKept kv.1)) []
            target_pfx) := by
  constructor
  · intro sdC xlC tcC dtype k hk
    have hmerged : k ∈ dictKeys (dictMerge (dictMerge
        (load_encoder_decoder sdC [] (lit "first_stage_model.sd"))
        (load_encoder_decoder xlC [] (lit "first_stage_model.xl")))
        (load_tensors tcC [] (lit "transcoder"))) := by
      simp only [build_auxiliary] at hk
      cases dtype with
      | none => exact hk
      | some dt => exact mem_keys_cast_fold _ dt k hk
    rcases mem_keys_dictMerge _ _ k hmerged with hv | htc
    · rcases mem_keys_dictMerge _ _ k hv with hsd | hxl
      · rcases mem_keys_load_encoder_decoder _ _ _ k hsd with h' | h'
        · rw [show normDot (lit "first_stage_model.sd") ++ lit "encoder."
              = lit "first_stage_model.sd.encoder." from by decide] at h'
          exact Or.inl h'
        · rw [show normDot (lit "first_stage_model.sd") ++ lit "decoder."
              = lit "first_stage_model.sd.decoder." from by decide] at h'
          exact Or.inr (Or.inl h')
      · rcases mem_keys_load_encoder_decoder _ _ _ k hxl with h' | h'
        · rw [show normDot (lit "first_stage_model.xl") ++ lit "encoder."
              = lit "first_stage_model.xl.encoder." from by decide] at h'
          exact Or.inr (Or.inr (Or.inl h'))
        · rw [show normDot (lit "first_stage_model.xl") ++ lit "decoder."
              = lit "first_stage_model.xl.decoder." from by decide] at h'
          exact Or.inr (Or.inr (Or.inr (Or.inl h')))
    · have h' := mem_keys_load_tensors_start _ _ _ k htc
      rw [show normDot (lit "transcoder") = lit "transcoder."
        from by decide] at h'
      exact Or.inr (Or.inr (Or.inr (Or.inr h')))
  · intro container target_pfx hnd
    have hnd' : (dictKeys
        (container.filter (fun kv => vaeTopLevelKept kv.1))).Nodup :=
      List.Nodup.sublist
        (List.Sublist.map Prod.fst (List.filter_sublist container)) hnd
    rw [load_encoder_decoder_eq_fold container target_pfx hnd,
      load_encoder_decoder_eq_fold _ target_pfx hnd',
      foldl_congr_skip _ (fun kv => vaeTopLevelKept kv.1) ?hskip
        container []]
    case hskip =>
      intro acc kv hkv
      simp only [vaeTopLevelKept, Bool.or_eq_false_iff,
        decide_eq_false_iff_not] at hkv
      rw [if_neg (by simp [hkv.1.1.1]), if_neg (by simp [hkv.1.1.2]),
        if_neg hkv.1.2, if_neg hkv.2]

/-- Claim C10 witness: concrete instances of both conjuncts — a key of
a concrete auxiliary build lies in the sd-encoder namespace, and a
concrete VAE input with a junk top-level key produces the same output
as its filtered version. -/
theorem C10_witness :
    (lit "first_stage_model.sd.encoder.1.w"
      ∈ dictKeys (build_auxiliary
          [(lit "taesd_encoder.1.w", Tensor.raw 0 NpDType.float32)] [] []
          (some NpDType.float16))
      ∧ (pyStartsWith (lit "first_stage_model.sd.encoder.1.w")
          (lit "first_stage_model.sd.encoder.") = true
        ∨ pyStartsWith (lit "first_stage_model.sd.encoder.1.w")
          (lit "first_stage_model.sd.decoder.") = true
        ∨ pyStartsWith (lit "first_stage_model.sd.encoder.1.w")
          (lit "first_stage_model.xl.encoder.") = true
        ∨ pyStartsWith (lit "first_stage_model.sd.encoder.1.w")
          (lit "first_stage_model.xl.decoder.") = true
        ∨ pyStartsWith (lit "first_stage_model.sd.encoder.1.w")
          (lit "transcoder.") = true))
  ∧ ((dictKeys [(lit "junk", Tensor.raw 0 NpDType.float32),
        (lit "vae_scale", Tensor.raw 1 NpDType.float32)]).Nodup
      ∧ load_encoder_decoder
          [(lit "junk", Tensor.raw 0 NpDType.float32),
           (lit "vae_scale", Tensor.raw 1 NpDType.float32)] [] (lit "T")
        = load_encoder_decoder
            ([(lit "junk", Tensor.raw 0 NpDType.float32),
              (lit "vae_scale", Tensor.raw 1 NpDType.float32)].filter
              (fun kv => vaeTopLevelKept kv.1)) [] (lit "T")) :=
  ⟨⟨by decide,
    C10_build_auxiliary_namespaces.1
      [(lit "taesd_encoder.1.w", Tensor.raw 0 NpDType.float32)] [] []
      (some NpDType.float16) (lit "first_stage_model.sd.encoder.1.w")
      (by decide)⟩,
   ⟨by decide,
    C10_build_auxiliary_namespaces.2
      [(lit "junk", Tensor.raw 0 NpDType.float32),
       (lit "vae_scale", Tensor.raw 1 NpDType.float32)] (lit "T")
      (by decide)⟩⟩
